import Mathlib

/-!
# Verification of the changeset-runner orchestration engine

Shallow embedding of `src/index.js` of the `github-run-changesets` action:
the remote-task polling loop (`pollTask`), file resolution (`resolveFiles`),
the `changeset_variables` parser, the per-file validate/execute operations,
the multi-file orchestration strategies of `run`, and the status aggregation
(`worstStatus`).  Effectful collaborators (the remote HTTP service, the file
system, timers) are modelled as explicit inputs: a poll attempt consumes one
`PollEvent` from a list describing what the network does on that attempt, a
submission consumes a `SubmitOutcome`, and the file system is a record of
functions.  JavaScript strings are modelled as Lean `String`s, with the small
set of JS string primitives used by the source re-implemented below over
`List Char` (so that all definitions evaluate by kernel reduction).
-/

/-! ## JS string primitives

Models of the JavaScript string operations used by `index.js`.  JS `trim`
removes Unicode whitespace; the source only ever meets ASCII whitespace, which
is what `isJsSpace` covers. -/

def isJsSpace (c : Char) : Bool :=
  c = ' ' || c = '\t' || c = '\n' || c = '\r'

/-- Model of `String.prototype.trim`. -/
def jsTrim (s : String) : String :=
  String.mk (((s.toList.dropWhile isJsSpace).reverse.dropWhile isJsSpace).reverse)

def jsSplitAux (sep : Char) : List Char → List Char → List String
  | [], cur => [String.mk cur.reverse]
  | c :: cs, cur =>
    if c = sep then String.mk cur.reverse :: jsSplitAux sep cs []
    else jsSplitAux sep cs (c :: cur)

/-- Model of `String.prototype.split` with a single-character separator. -/
def jsSplit (sep : Char) (s : String) : List String :=
  jsSplitAux sep s.toList []

/-- Model of `Array.prototype.join` with a single-character separator. -/
def jsJoin (sep : Char) : List String → String
  | [] => ""
  | [x] => x
  | x :: xs => x ++ String.mk [sep] ++ jsJoin sep xs

/-- Model of `String.prototype.startsWith` with a single-character prefix. -/
def jsStartsWithChar (s : String) (c : Char) : Bool :=
  match s.toList with
  | [] => false
  | d :: _ => d = c

def listPrefixEq : List Char → List Char → Bool
  | [], _ => true
  | _ :: _, [] => false
  | a :: as, b :: bs => a = b && listPrefixEq as bs

def listIncludes (pat : List Char) : List Char → Bool
  | [] => listPrefixEq pat []
  | c :: cs => listPrefixEq pat (c :: cs) || listIncludes pat cs

/-- Model of `String.prototype.includes`. -/
def jsIncludes (s pat : String) : Bool :=
  listIncludes pat.toList s.toList

/-- Model of `path.basename`: the part of the path after the last slash. -/
def basename (p : String) : String :=
  String.mk ((p.toList.reverse.takeWhile (fun c => c ≠ '/')).reverse)

/-- Model of `changesetFile.replace(/\\/g, '/')`. -/
def normalizeSlashes (s : String) : String :=
  String.mk (s.toList.map (fun c => if c = '\\' then '/' else c))

/-! ## Task polling (`pollTask`, index.js lines 6-60)

A `PollEvent` is what the network does on one poll attempt:
* `fault msg`: `fetch` (or reading the response) throws an error whose
  `message` is `msg` — the `catch` block rethrows it when the message
  contains `'Poll failed'`, otherwise logs a warning and keeps looping;
* `httpError code body statusText`: the response arrives with `ok = false`
  — the loop throws `Poll failed with status ...`, which the `catch` block
  rethrows (fatal);
* `payload status result error`: a parsed JSON body `{status, result?, error?}`.

`JsonObj` models the JSON objects carried in `result` payloads: the only field
the source inspects is `is_valid` (plus `run_id`/`changeset_name` for logging,
kept here so that distinct payloads stay distinct). -/

structure JsonObj where
  is_valid : Option Bool := none
  run_id : Option Nat := none
  changeset_name : Option String := none
deriving DecidableEq, Repr

def JsonObj.empty : JsonObj := {}

inductive PollEvent where
  | fault (msg : String)
  | httpError (code : Nat) (body : String) (statusText : String)
  | payload (status : String) (result : Option JsonObj) (error : Option String)
deriving DecidableEq, Repr

inductive TaskOutcome where
  | success (result : JsonObj)
  | failure (error : String)
  | revoked
  | timeout
deriving DecidableEq, Repr

/-- How the poll loop ends: a returned `TaskOutcome`, a thrown error
(`fatal`), or — a modelling artifact only — exhaustion of the supplied event
list before the loop would have stopped (`starved`). -/
inductive PollExit where
  | outcome (o : TaskOutcome)
  | fatal (msg : String)
  | starved
deriving DecidableEq, Repr

/-- The body of `pollTask`'s `while (elapsed < pollingTimeoutSeconds)` loop,
with the fixed `pollInterval = 5`.  Returns the exit together with the number
of poll attempts made.  Each iteration sleeps one interval, adds it to
`elapsed`, then issues one status request (consuming one event). -/
def pollTaskGo (timeoutSeconds : Nat) : Nat → List PollEvent → PollExit × Nat
  | elapsed, [] =>
    if elapsed < timeoutSeconds then (.starved, 0) else (.outcome .timeout, 0)
  | elapsed, e :: rest =>
    if elapsed < timeoutSeconds then
      match e with
      | .fault msg =>
        if jsIncludes msg "Poll failed" then (.fatal msg, 1)
        else
          let r := pollTaskGo timeoutSeconds (elapsed + 5) rest
          (r.1, r.2 + 1)
      | .httpError code body statusText =>
        (.fatal ("Poll failed with status " ++ toString code ++ ": " ++
          (if body = "" then statusText else body)), 1)
      | .payload status result error =>
        if status = "SUCCESS" then
          (.outcome (.success (result.getD JsonObj.empty)), 1)
        else if status = "FAILURE" then
          (.outcome (.failure (error.getD "Unknown error")), 1)
        else if status = "REVOKED" then
          (.outcome .revoked, 1)
        else
          -- PENDING, STARTED, RETRY — continue polling
          let r := pollTaskGo timeoutSeconds (elapsed + 5) rest
          (r.1, r.2 + 1)
    else (.outcome .timeout, 0)

/-- Model of `pollTask(baseUrl, apiKey, taskId, label, pollingTimeoutSeconds)`;
the url/key/label only feed logging and are dropped. -/
def pollTask (timeoutSeconds : Nat) (events : List PollEvent) : PollExit × Nat :=
  pollTaskGo timeoutSeconds 0 events

/-- An event on which the poll loop keeps looping: a transport fault that is
not mistaken for the loop's own `Poll failed` error, or a payload whose status
is none of the three terminal ones. -/
def PollEvent.isBenign : PollEvent → Bool
  | .fault msg => !jsIncludes msg "Poll failed"
  | .httpError _ _ _ => false
  | .payload status _ _ =>
    !(status = "SUCCESS" || status = "FAILURE" || status = "REVOKED")

def pendingEvent : PollEvent := .payload "PENDING" none none

/-! ## Per-file operations (`validateFile` / `executeFile`, lines 122-303)

A `RemoteEnv` describes what the remote service does for one submission: the
outcome of the POST, and the poll events that follow.  Reading the file
content, choosing the endpoint from the extension and building the request
body have no effect on the returned result and are not modelled here (the
payload construction is covered separately by the variable-injection model).

`SubmitOutcome.ok` carries the response envelope; `taskId = none` models a
response missing the nested `data.attributes.task_id` field (the property
access throws and is converted to the extraction error). -/

structure Envelope where
  taskId : Option String
deriving DecidableEq, Repr

inductive SubmitOutcome where
  | netError (msg : String)
  | httpFail (code : Nat) (body : String) (statusText : String)
  | ok (envelope : Envelope)
deriving DecidableEq, Repr

structure RemoteEnv where
  submit : SubmitOutcome
  pollEvents : List PollEvent
deriving DecidableEq, Repr

/-- What `validateFile`/`executeFile` return (their `{taskId?, status, result,
error?}` object). -/
structure OpReturn where
  taskId : Option String := none
  status : String
  result : JsonObj := {}
  error : Option String := none
deriving DecidableEq, Repr

/-- A per-file operation either returns, throws, or (modelling artifact)
starves for poll events. -/
inductive OpExit where
  | ok (r : OpReturn)
  | thrown (msg : String)
  | starved
deriving DecidableEq, Repr

/-- Model of `validateFile(filePath, options)` (lines 122-216).  All thrown
errors keep the source's message text, minus interpolated URLs. -/
def validateFile (env : RemoteEnv) (pollingTimeoutSeconds : Nat) : OpExit :=
  match env.submit with
  | .netError msg => .thrown ("Failed to connect to InProd API: " ++ msg)
  | .httpFail code body statusText =>
    .thrown ("Validation request failed with status " ++ toString code ++ ": " ++
      (if body = "" then statusText else body))
  | .ok envelope =>
    match envelope.taskId with
    | none => .thrown "Failed to extract task_id from validation response"
    | some tid =>
      if tid = "" ∨ jsTrim tid = "" then .thrown "Validation API returned an empty task_id"
      else
        match (pollTask pollingTimeoutSeconds env.pollEvents).1 with
        | .starved => .starved
        | .fatal msg => .thrown msg
        | .outcome .timeout =>
          .ok { taskId := some tid, status := "TIMEOUT", result := {},
                error := some ("Validation did not complete within " ++
                  toString pollingTimeoutSeconds ++ " seconds") }
        | .outcome (.failure e) =>
          .ok { status := "FAILURE", result := {}, error := some ("Validation failed: " ++ e) }
        | .outcome .revoked =>
          .ok { status := "REVOKED", result := {}, error := some "Validation task was cancelled" }
        | .outcome (.success res) =>
          if res.is_valid.getD false then
            .ok { status := "SUCCESS", result := res }
          else
            .ok { status := "FAILURE", result := res,
                  error := some "Changeset validation failed. See validation errors above." }

/-- Model of `executeFile(filePath, options)` (lines 219-303).  The source's
final `return { status: pollResult.status, result: {} }` is unreachable
because the poller only ever returns the four statuses matched above it. -/
def executeFile (env : RemoteEnv) (pollingTimeoutSeconds : Nat) : OpExit :=
  match env.submit with
  | .netError msg => .thrown ("Failed to connect to InProd API: " ++ msg)
  | .httpFail code body statusText =>
    .thrown ("API request failed with status " ++ toString code ++ ": " ++
      (if body = "" then statusText else body))
  | .ok envelope =>
    match envelope.taskId with
    | none => .thrown "Failed to extract task_id from API response"
    | some tid =>
      if tid = "" ∨ jsTrim tid = "" then .thrown "API returned an empty task_id"
      else
        match (pollTask pollingTimeoutSeconds env.pollEvents).1 with
        | .starved => .starved
        | .fatal msg => .thrown msg
        | .outcome (.success res) => .ok { status := "SUCCESS", result := res }
        | .outcome (.failure e) =>
          .ok { status := "FAILURE", result := {},
                error := some ("Changeset execution failed: " ++ e) }
        | .outcome .revoked =>
          .ok { status := "REVOKED", result := {},
                error := some "Changeset execution was cancelled" }
        | .outcome .timeout =>
          .ok { status := "TIMEOUT", result := {},
                error := some ("Changeset execution did not complete within " ++
                  toString pollingTimeoutSeconds ++ " seconds") }

/-! ## Single-file flow and the orchestrator (`processSingleFile` / `run`) -/

/-- One entry of the orchestrator's `results` array. -/
structure FileRec where
  file : String
  taskId : Option String := none
  status : String
  result : JsonObj := {}
  error : Option String := none
deriving DecidableEq, Repr

inductive ProcExit where
  | ok (r : FileRec)
  | thrown (msg : String)
  | starved
deriving DecidableEq, Repr

/-- Exit of `processSingleFile` together with how many validate / execute
submissions it performed. -/
structure ProcOut where
  exit : ProcExit
  valCalls : Nat
  execCalls : Nat
deriving DecidableEq, Repr

/-- Model of `processSingleFile(filePath, options)` (lines 307-346).  In the
source, `if (execResult.error)` tests JS truthiness; every error string the
operations produce is non-empty, so it is modelled as `Option.isSome`. -/
def processSingleFile (f : String) (validateOnly validateBeforeExecute : Bool)
    (valEnv execEnv : String → RemoteEnv) (timeout : Nat) : ProcOut :=
  let execStep : ProcExit :=
    match executeFile (execEnv f) timeout with
    | .starved => .starved
    | .thrown msg => .thrown msg
    | .ok e =>
      .ok { file := f, status := e.status, result := e.result, error := e.error }
  if validateOnly || validateBeforeExecute then
    match validateFile (valEnv f) timeout with
    | .starved => ⟨.starved, 1, 0⟩
    | .thrown msg => ⟨.thrown msg, 1, 0⟩
    | .ok v =>
      if v.status ≠ "SUCCESS" then
        ⟨.ok { file := f, status := v.status, result := v.result, error := v.error }, 1, 0⟩
      else if validateOnly then
        ⟨.ok { file := f, status := "SUCCESS", result := v.result }, 1, 0⟩
      else ⟨execStep, 1, 1⟩
  else ⟨execStep, 0, 1⟩

/-- Accumulator of the orchestrator loops: the `results` array plus the
numbers of validate / execute submissions made so far. -/
structure LoopOut where
  results : List FileRec
  valCalls : Nat
  execCalls : Nat
deriving DecidableEq, Repr

/-- The `for` loop shared by the `per_file` strategy (lines 500-518) and
phase 2 of `validate_first` (lines 479-497): process each file, push the
result (or a FAILURE record for a thrown error), and stop early when
`fail_fast` is set and the file failed. -/
def runLoop (process : String → ProcOut) (failFast : Bool) :
    List String → LoopOut → Option LoopOut
  | [], acc => some acc
  | f :: rest, acc =>
    let p := process f
    let v := acc.valCalls + p.valCalls
    let e := acc.execCalls + p.execCalls
    match p.exit with
    | .starved => none
    | .thrown msg =>
      let acc' : LoopOut :=
        ⟨acc.results ++ [{ file := f, status := "FAILURE", result := {}, error := some msg }], v, e⟩
      if failFast then some acc' else runLoop process failFast rest acc'
    | .ok r =>
      let acc' : LoopOut := ⟨acc.results ++ [r], v, e⟩
      if r.error.isSome && failFast then some acc' else runLoop process failFast rest acc'

/-- Phase 1 of the `validate_first` strategy (lines 433-455): validate every
file; push a record only for files whose validation did not succeed; stop
early on a failure when `fail_fast` is set. -/
def phase1 (valEnv : String → RemoteEnv) (timeout : Nat) (failFast : Bool) :
    List String → LoopOut → Option LoopOut
  | [], acc => some acc
  | f :: rest, acc =>
    match validateFile (valEnv f) timeout with
    | .starved => none
    | .thrown msg =>
      let acc' : LoopOut :=
        ⟨acc.results ++ [{ file := f, status := "FAILURE", result := {}, error := some msg }],
         acc.valCalls + 1, acc.execCalls⟩
      if failFast then some acc' else phase1 valEnv timeout failFast rest acc'
    | .ok v =>
      if v.status ≠ "SUCCESS" then
        let acc' : LoopOut :=
          ⟨acc.results ++ [{ file := f, taskId := v.taskId, status := v.status,
                             result := v.result, error := v.error }],
           acc.valCalls + 1, acc.execCalls⟩
        if failFast then some acc' else phase1 valEnv timeout failFast rest acc'
      else phase1 valEnv timeout failFast rest ⟨acc.results, acc.valCalls + 1, acc.execCalls⟩

/-! ## Aggregation (`worstStatus`, lines 348-354, and lines 521-542) -/

def STATUS_PRIORITY (s : String) : Option Nat :=
  if s = "FAILURE" then some 0
  else if s = "TIMEOUT" then some 1
  else if s = "REVOKED" then some 2
  else if s = "SUBMITTED" then some 3
  else if s = "SUCCESS" then some 4
  else none

/-- `STATUS_PRIORITY[s] ?? 99`. -/
def prio (s : String) : Nat := (STATUS_PRIORITY s).getD 99

def worstStatus (results : List FileRec) : String :=
  results.foldl (fun worst r => if prio r.status < prio worst then r.status else worst) "SUCCESS"

/-- One element of the `result` output array (`resultArray`, lines 525-530):
the basename of the file, the status, `result || {}` and `error || null`. -/
structure ResJson where
  file : String
  status : String
  result : JsonObj
  error : Option String
deriving DecidableEq, Repr

def mapResult (r : FileRec) : ResJson :=
  { file := basename r.file, status := r.status, result := r.result, error := r.error }

def vfMsg (k n : Nat) : String :=
  toString k ++ " of " ++ toString n ++ " changeset(s) failed validation. See result output for details."

def tailMsg (k n : Nat) : String :=
  toString k ++ " of " ++ toString n ++ " changeset(s) failed. See result output for details."

/-- The error thrown at the end of the run (lines 535-542): when the
aggregate status is `FAILURE`, `TIMEOUT` or `REVOKED`, the single failing
file's error verbatim, or a count summary; `none` (no throw) otherwise. -/
def runError (results : List FileRec) : Option String :=
  let aggregateStatus := worstStatus results
  if aggregateStatus = "FAILURE" ∨ aggregateStatus = "TIMEOUT" ∨ aggregateStatus = "REVOKED" then
    let failedFiles := results.filter
      (fun r => !(r.status == "SUCCESS") && !(r.status == "SUBMITTED"))
    some (match failedFiles with
      | [r] => r.error.getD ""
      | _ => tailMsg failedFiles.length results.length)
  else none

/-- Everything the run produces: the raw results, the `status` output, the
`result` output, the error it throws (if any), and the submission counts. -/
structure RunOutput where
  results : List FileRec
  statusOutput : String
  resultOutput : List ResJson
  thrown : Option String
  valCalls : Nat
  execCalls : Nat
deriving DecidableEq, Repr

/-- Model of the strategy selection, the two processing loops and the final
aggregation of `run` (lines 429-542), starting from the resolved file list.
`none` is the modelling artifact of an operation starving for poll events. -/
def runCore (executionStrategy : String) (validateOnly validateBeforeExecute failFast : Bool)
    (filePaths : List String) (valEnv execEnv : String → RemoteEnv) (timeout : Nat) :
    Option RunOutput :=
  if executionStrategy = "validate_first" ∧ validateOnly = false ∧ validateBeforeExecute = true then
    match phase1 valEnv timeout failFast filePaths ⟨[], 0, 0⟩ with
    | none => none
    | some l1 =>
      let validationFailures := l1.results.filter (fun r => !(r.status == "SUCCESS"))
      if validationFailures.isEmpty then
        -- Phase 2: execute all files (skip re-validation)
        match runLoop (fun f => processSingleFile f false false valEnv execEnv timeout)
            failFast filePaths l1 with
        | none => none
        | some l2 =>
          some ⟨l2.results, worstStatus l2.results, l2.results.map mapResult,
            runError l2.results, l2.valCalls, l2.execCalls⟩
      else
        some ⟨l1.results, "FAILURE", l1.results.map mapResult,
          some (match validationFailures with
            | [r] => r.error.getD ""
            | _ => vfMsg validationFailures.length filePaths.length),
          l1.valCalls, l1.execCalls⟩
  else
    match runLoop (fun f => processSingleFile f validateOnly validateBeforeExecute valEnv execEnv timeout)
        failFast filePaths ⟨[], 0, 0⟩ with
    | none => none
    | some l =>
      some ⟨l.results, worstStatus l.results, l.results.map mapResult,
        runError l.results, l.valCalls, l.execCalls⟩

/-- Does validation of file `f` succeed (return, not throw, with status
`SUCCESS`)? -/
def valOk (valEnv : String → RemoteEnv) (timeout : Nat) (f : String) : Bool :=
  match validateFile (valEnv f) timeout with
  | .ok v => v.status == "SUCCESS"
  | _ => false

/-! ## File resolution (`resolveFiles`, lines 90-119)

The program's environment here is a record: the glob expansion (already
restricted to files, `nodir: true`), existence of a path, `path.resolve`,
and `String.prototype.localeCompare` — the runtime's ICU locale collation, a
three-way comparator the program consumes from its environment (locale data)
exactly like the file system, so it is a field of the environment rather
than a fixed function.  `Array.prototype.sort` is a stable sort, modelled by
`List.mergeSort`. -/

structure FsEnv where
  globMatches : String → List String
  fileExists : String → Bool
  resolve : String → String
  localeCompare : String → String → Int

/-- Model of `isGlobPattern` (the regex `/[*?[\]{}]/`). -/
def isGlobPattern (pattern : String) : Bool :=
  pattern.toList.any (fun c => c = '*' || c = '?' || c = '[' || c = ']' || c = '{' || c = '}')

/-- The sort comparator of line 108,
`path.basename(a).localeCompare(path.basename(b))`, turned into the
less-or-equal test that `Array.prototype.sort` orders ascending by. -/
def localeLe (fs : FsEnv) (a b : String) : Bool :=
  fs.localeCompare (basename a) (basename b) ≤ 0

def resolveFiles (fs : FsEnv) (changesetFile : String) : Except String (List String) :=
  if jsTrim changesetFile = "" then .error "changeset_file is required"
  else if isGlobPattern changesetFile then
    let found := fs.globMatches (normalizeSlashes changesetFile)
    if found.length = 0 then .error ("No files matched the pattern: " ++ changesetFile)
    else .ok ((found.map fs.resolve).mergeSort (localeLe fs))
  else
    let filePath := fs.resolve changesetFile
    if fs.fileExists filePath then .ok [filePath]
    else .error ("Changeset file not found: " ++ filePath)

/-! ## The `changeset_variables` parser (lines 372-386)

The parsed variables live in a JS object: insertion of an existing key
overwrites its value in place, a new key is appended (`objInsert`). -/

def objInsert (m : List (String × String)) (k v : String) : List (String × String) :=
  if m.any (fun kv => kv.1 == k) then
    m.map (fun kv => if kv.1 == k then (k, v) else kv)
  else m ++ [(k, v)]

def invalidLineMsg (t : String) : String :=
  "Invalid changeset_variables format. Expected KEY=VALUE on each line, got: " ++ t

/-- One non-blank, non-comment line: `const [key, ...valueParts] = trimmed.split('=')`,
error when `!key || valueParts.length === 0`, else
`changesetVariables[key.trim()] = valueParts.join('=').trim()`. -/
def processLine (m : List (String × String)) (t : String) :
    Except String (List (String × String)) :=
  match jsSplit '=' t with
  | [] => .error (invalidLineMsg t)
  | [_] => .error (invalidLineMsg t)
  | key :: valueParts =>
    if key = "" then .error (invalidLineMsg t)
    else .ok (objInsert m (jsTrim key) (jsTrim (jsJoin '=' valueParts)))

def parseLines : List (String × String) → List String → Except String (List (String × String))
  | m, [] => .ok m
  | m, line :: rest =>
    let trimmed := jsTrim line
    if trimmed = "" || jsStartsWithChar trimmed '#' then parseLines m rest
    else
      match processLine m trimmed with
      | .error e => .error e
      | .ok m' => parseLines m' rest

/-- Model of the `changeset_variables` parsing in `run` (lines 372-386):
`null` (`none`) when the raw input is empty or whitespace-only, otherwise the
parsed object or the error thrown on a malformed line. -/
def parseChangesetVariables (input : String) :
    Except String (Option (List (String × String))) :=
  if input = "" || jsTrim input = "" then .ok none
  else
    match parseLines [] (jsSplit '\n' (jsTrim input)) with
    | .error e => .error e
    | .ok m => .ok (some m)

/-! Spec-side restatement of the parser, written from the spec's words:
"everything left of the first `=` (trimmed) is the key, everything right
(including any further `=` characters, trimmed) is the value", with the error
condition extended by the empty-key case that the source also rejects. -/

/-- Everything left of the first `=`. -/
def leftOfEq (t : String) : String :=
  String.mk (t.toList.takeWhile (fun c => c ≠ '='))

/-- Everything right of the first `=` (including any further `=`s). -/
def rightOfEq (t : String) : String :=
  String.mk ((t.toList.dropWhile (fun c => c ≠ '=')).drop 1)

def processLineSpec (m : List (String × String)) (t : String) :
    Except String (List (String × String)) :=
  if '=' ∈ t.toList then
    if leftOfEq t = "" then .error (invalidLineMsg t)
    else .ok (objInsert m (jsTrim (leftOfEq t)) (jsTrim (rightOfEq t)))
  else .error (invalidLineMsg t)

def parseLinesSpec : List (String × String) → List String → Except String (List (String × String))
  | m, [] => .ok m
  | m, line :: rest =>
    let trimmed := jsTrim line
    if trimmed = "" || jsStartsWithChar trimmed '#' then parseLinesSpec m rest
    else
      match processLineSpec m trimmed with
      | .error e => .error e
      | .ok m' => parseLinesSpec m' rest

def parseChangesetVariablesSpec (input : String) :
    Except String (Option (List (String × String))) :=
  if input = "" || jsTrim input = "" then .ok none
  else
    match parseLinesSpec [] (jsSplit '\n' (jsTrim input)) with
    | .error e => .error e
    | .ok m => .ok (some m)

/-! ## Variable injection into a changeset document

Modelled from the spec: the repository's `injectYamlVariables` /
`injectJsonVariables` (exported from `index.js` and exercised by the test
suite) are not part of the sources provided under `src/`; `inject` below
follows §4.2 of the spec — for each `(name, value)` of the variable set, in
input order: compute the mask from any pre-existing matching entry, remove
all matching entries, and append one new global-scope entry. -/

structure VarEntry where
  name : String
  value : String
  mask_value : Bool
  environment : Option String
deriving DecidableEq, Repr

/-- Modelled from the spec: steps 1-3 of §4.2 `inject` for a single
`(name, value)` pair. -/
def injectOne (vars : List VarEntry) (n v : String) : List VarEntry :=
  let mask := vars.any (fun e => e.name == n && e.mask_value)
  vars.filter (fun e => !(e.name == n)) ++ [⟨n, v, mask, none⟩]

/-- Modelled from the spec: `inject(document, format, variables)` restricted
to the document's variable collection (all other document fields pass through
unchanged in both dialects). -/
def inject (vars : List VarEntry) (vset : List (String × String)) : List VarEntry :=
  vset.foldl (fun acc kv => injectOne acc kv.1 kv.2) vars

/-! # Theorems -/

/-! ## C4 / C5 — the polling state machine -/

theorem pollTaskGo_timeout (timeoutSeconds : Nat) (events : List PollEvent)
    (hben : ∀ e ∈ events, e.isBenign = true) :
    ∀ elapsed, timeoutSeconds ≤ elapsed + 5 * events.length →
      (pollTaskGo timeoutSeconds elapsed events).1 = .outcome .timeout := by
  induction events with
  | nil =>
    intro elapsed hle
    simp only [List.length_nil, Nat.mul_zero, Nat.add_zero] at hle
    simp [pollTaskGo, Nat.not_lt.mpr hle]
  | cons e rest ih =>
    intro elapsed hle
    have hbe : e.isBenign = true := hben e (List.mem_cons_self e rest)
    have hbrest : ∀ x ∈ rest, x.isBenign = true :=
      fun x hx => hben x (List.mem_cons_of_mem e hx)
    by_cases hlt : elapsed < timeoutSeconds
    · have hle' : timeoutSeconds ≤ (elapsed + 5) + 5 * rest.length := by
        simp only [List.length_cons] at hle; omega
      cases e with
      | fault msg =>
        have hinc : jsIncludes msg "Poll failed" = false := by
          simpa [PollEvent.isBenign] using hbe
        simp [pollTaskGo, hlt, hinc, ih hbrest (elapsed + 5) hle']
      | httpError code body statusText =>
        simp [PollEvent.isBenign] at hbe
      | payload status result error =>
        simp only [PollEvent.isBenign, Bool.not_eq_true'] at hbe
        have h1 : ¬ status = "SUCCESS" := by
          intro h; simp [h] at hbe
        have h2 : ¬ status = "FAILURE" := by
          intro h; simp [h] at hbe
        have h3 : ¬ status = "REVOKED" := by
          intro h; simp [h] at hbe
        simp [pollTaskGo, hlt, h1, h2, h3, ih hbrest (elapsed + 5) hle']
    · simp [pollTaskGo, hlt]

/-- C4: with the fixed 5-second interval, whenever every observed poll event
keeps the loop looping (no terminal remote status), the poller returns
`TIMEOUT` as soon as the accumulated elapsed time reaches `timeoutSeconds`;
in particular with `timeoutSeconds = 10` and only `PENDING` responses it
returns `TIMEOUT` after issuing exactly 2 status requests. -/
theorem C4_pollTask_timeout :
    (∀ (timeoutSeconds : Nat) (events : List PollEvent),
        (∀ e ∈ events, e.isBenign = true) →
        timeoutSeconds ≤ 5 * events.length →
        (pollTask timeoutSeconds events).1 = .outcome .timeout) ∧
    pollTask 10 [pendingEvent, pendingEvent] = (.outcome .timeout, 2) := by
  constructor
  · intro timeoutSeconds events hben hle
    exact pollTaskGo_timeout timeoutSeconds events hben 0 (by omega)
  · decide

theorem C4_pollTask_timeout_witness :
    (∀ e ∈ [pendingEvent, pendingEvent, pendingEvent], e.isBenign = true) ∧
    (pollTask 12 [pendingEvent, pendingEvent, pendingEvent]).1 = .outcome .timeout :=
  ⟨by decide, C4_pollTask_timeout.1 12 [pendingEvent, pendingEvent, pendingEvent]
    (by decide) (by decide)⟩

/-- C5 counterexample: a transport-level fault whose error message happens to
contain `'Poll failed'` is rethrown by the `catch` block (the marker used to
recognise the loop's own fatal poll-response error), so a single transient
transport fault followed by a `SUCCESS` response does *not* always yield
`SUCCESS`: here the fault escalates to a thrown error after one attempt. -/
theorem C5_counterexample_marker_fault :
    pollTask 10
      [.fault "Poll failed: socket hang up", .payload "SUCCESS" (some JsonObj.empty) none] =
      (.fatal "Poll failed: socket hang up", 1) := by decide

/-- C5 (amended): a transport-level fault whose message does not contain the
`'Poll failed'` marker never escalates: the poll loop treats it exactly like a
non-terminal poll tick (same exit, same attempt count, same timeout budget),
and a single such fault followed by a `SUCCESS` response still yields
`{status: SUCCESS, result}` (after 2 attempts, provided the budget allows a
second tick). -/
theorem C5_fault_transient :
    (∀ (timeoutSeconds : Nat) (msg : String) (events : List PollEvent),
        jsIncludes msg "Poll failed" = false →
        pollTask timeoutSeconds (.fault msg :: events) =
          pollTask timeoutSeconds (pendingEvent :: events)) ∧
    (∀ (timeoutSeconds : Nat) (msg : String) (res : JsonObj),
        jsIncludes msg "Poll failed" = false → 5 < timeoutSeconds →
        pollTask timeoutSeconds [.fault msg, .payload "SUCCESS" (some res) none] =
          (.outcome (.success res), 2)) := by
  constructor
  · intro timeoutSeconds msg events hinc
    by_cases h0 : 0 < timeoutSeconds
    · simp [pollTask, pollTaskGo, h0, hinc, pendingEvent]
    · simp [pollTask, pollTaskGo, h0, pendingEvent]
  · intro timeoutSeconds msg res hinc h5
    have h0 : 0 < timeoutSeconds := by omega
    have h5' : 5 < timeoutSeconds := h5
    simp [pollTask, pollTaskGo, h0, h5', hinc]

theorem C5_fault_transient_witness :
    jsIncludes "connection reset by peer" "Poll failed" = false ∧ 5 < 10 ∧
    pollTask 10 [.fault "connection reset by peer", .payload "SUCCESS" (some JsonObj.empty) none] =
      (.outcome (.success JsonObj.empty), 2) :=
  ⟨by decide, by decide,
   C5_fault_transient.2 10 "connection reset by peer" JsonObj.empty (by decide) (by decide)⟩

/-! ## C7 — status aggregation -/

theorem worstStatus_foldl_spec (rs : List FileRec) : ∀ init : String,
    (rs.foldl (fun worst r => if prio r.status < prio worst then r.status else worst) init = init ∨
      rs.foldl (fun worst r => if prio r.status < prio worst then r.status else worst) init ∈
        rs.map (fun r => r.status)) ∧
    prio (rs.foldl (fun worst r => if prio r.status < prio worst then r.status else worst) init) ≤
      prio init ∧
    ∀ r ∈ rs,
      prio (rs.foldl (fun worst r => if prio r.status < prio worst then r.status else worst) init) ≤
        prio r.status := by
  induction rs with
  | nil => intro init; exact ⟨Or.inl rfl, Nat.le_refl _, by simp⟩
  | cons r rest ih =>
    intro init
    by_cases hlt : prio r.status < prio init
    · have := ih r.status
      simp only [List.foldl_cons, if_pos hlt]
      refine ⟨?_, ?_, ?_⟩
      · rcases this.1 with h | h
        · exact Or.inr (by simp [h])
        · exact Or.inr (by simp [h])
      · exact Nat.le_trans this.2.1 (Nat.le_of_lt hlt)
      · intro x hx
        rcases List.mem_cons.mp hx with rfl | hx'
        · exact this.2.1
        · exact this.2.2 x hx'
    · have := ih init
      simp only [List.foldl_cons, if_neg hlt]
      refine ⟨?_, this.2.1, ?_⟩
      · rcases this.1 with h | h
        · exact Or.inl h
        · exact Or.inr (by simp [h])
      · intro x hx
        rcases List.mem_cons.mp hx with rfl | hx'
        · exact Nat.le_trans this.2.1 (Nat.le_of_not_lt hlt)
        · exact this.2.2 x hx'

/-- C7: `worstStatus` of the empty result list is `SUCCESS`, and over any
result list whose statuses are among the five known ones it returns the
single worst status present, per the severity ranking
`FAILURE > TIMEOUT > REVOKED > SUBMITTED > SUCCESS` (lower priority number is
worse). -/
theorem C7_worstStatus_spec :
    worstStatus [] = "SUCCESS" ∧
    ∀ rs : List FileRec, rs ≠ [] →
      (∀ r ∈ rs,
        r.status ∈ (["FAILURE", "TIMEOUT", "REVOKED", "SUBMITTED", "SUCCESS"] : List String)) →
      worstStatus rs ∈ rs.map (fun r => r.status) ∧
      ∀ r ∈ rs, prio (worstStatus rs) ≤ prio r.status := by
  refine ⟨rfl, ?_⟩
  intro rs hne hknown
  have hspec := worstStatus_foldl_spec rs "SUCCESS"
  have hmin : ∀ r ∈ rs, prio (worstStatus rs) ≤ prio r.status := hspec.2.2
  refine ⟨?_, hmin⟩
  rcases hspec.1 with hinit | hmem
  · -- the fold returned the initial "SUCCESS": some element must be SUCCESS itself
    cases rs with
    | nil => exact absurd rfl hne
    | cons a l =>
      have ha := hmin a (List.mem_cons_self a l)
      have hw : worstStatus (a :: l) = "SUCCESS" := hinit
      rw [hw] at ha ⊢
      have hstat := hknown a (List.mem_cons_self a l)
      simp only [List.mem_cons, List.not_mem_nil, or_false] at hstat
      rcases hstat with h | h | h | h | h <;>
        first
        | (exact List.mem_map.mpr ⟨a, List.mem_cons_self a l, h⟩)
        | (rw [h] at ha; simp [prio, STATUS_PRIORITY] at ha)
  · exact hmem

def sampleRecs : List FileRec :=
  [{ file := "a.yaml", status := "TIMEOUT", error := some "t" },
   { file := "b.yaml", status := "FAILURE", error := some "f" },
   { file := "c.yaml", status := "SUCCESS" }]

theorem C7_worstStatus_spec_witness :
    sampleRecs ≠ [] ∧
    (∀ r ∈ sampleRecs,
      r.status ∈ (["FAILURE", "TIMEOUT", "REVOKED", "SUBMITTED", "SUCCESS"] : List String)) ∧
    (worstStatus sampleRecs ∈ sampleRecs.map (fun r => r.status) ∧
      ∀ r ∈ sampleRecs, prio (worstStatus sampleRecs) ≤ prio r.status) :=
  ⟨by decide, by decide, C7_worstStatus_spec.2 sampleRecs (by decide) (by decide)⟩

/-! ## C1 — variable injection -/

theorem injectOne_filter_self (vars : List VarEntry) (n v : String) :
    (injectOne vars n v).filter (fun e => e.name == n) =
      [⟨n, v, vars.any (fun e => e.name == n && e.mask_value), none⟩] := by
  simp only [injectOne, List.filter_append, List.filter_filter]
  have h1 : vars.filter (fun e => (e.name == n) && !(e.name == n)) = [] := by
    apply List.filter_eq_nil_iff.mpr
    intro e _
    cases h : (e.name == n) <;> simp [h]
  rw [h1]
  simp

theorem injectOne_filter_other (vars : List VarEntry) (n v m : String) (h : m ≠ n) :
    (injectOne vars n v).filter (fun e => e.name == m) =
      vars.filter (fun e => e.name == m) := by
  simp only [injectOne, List.filter_append, List.filter_filter]
  have h2 : ((⟨n, v, vars.any (fun e => e.name == n && e.mask_value), none⟩ : VarEntry).name == m) = false := by
    simp [Ne.symm h]
  have h1 : vars.filter (fun e => (e.name == m) && !(e.name == n)) =
      vars.filter (fun e => e.name == m) := by
    apply List.filter_congr
    intro e _
    cases hm : (e.name == m) with
    | false => simp
    | true =>
      have : e.name = m := by simpa using hm
      simp [this, h]
  rw [h1]
  simp [h2]

theorem injectOne_any_other (vars : List VarEntry) (n v m : String) (h : m ≠ n) :
    (injectOne vars n v).any (fun e => e.name == m && e.mask_value) =
      vars.any (fun e => e.name == m && e.mask_value) := by
  simp only [injectOne, List.any_append, List.any_filter]
  have hfun : (fun a : VarEntry => !(a.name == n) && (a.name == m && a.mask_value)) =
      (fun a : VarEntry => a.name == m && a.mask_value) := by
    funext a
    cases hm : (a.name == m) with
    | false => simp [hm]
    | true =>
      have ham : a.name = m := by simpa using hm
      simp [ham, h]
  rw [hfun]
  simp [Ne.symm h]

theorem inject_filter_not_mem (vset : List (String × String)) :
    ∀ (doc : List VarEntry) (n : String), n ∉ vset.map Prod.fst →
      (inject doc vset).filter (fun e => e.name == n) = doc.filter (fun e => e.name == n) := by
  induction vset with
  | nil => intro doc n _; rfl
  | cons kv rest ih =>
    intro doc n hn
    simp only [List.map_cons, List.mem_cons, not_or] at hn
    have : inject doc (kv :: rest) = inject (injectOne doc kv.1 kv.2) rest := rfl
    rw [this, ih (injectOne doc kv.1 kv.2) n hn.2,
      injectOne_filter_other doc kv.1 kv.2 n hn.1]

/-- C1: after injecting a `VariableSet` into a document's variable collection,
every name of the set has exactly one entry, that entry's `environment` is
`null` (global scope), and its `mask_value` is `true` exactly when some
pre-existing entry of that name had `mask_value = true`.  (`inject` is
modelled from the spec; see its doc comment.) -/
theorem C1_inject_invariant :
    ∀ (doc : List VarEntry) (vset : List (String × String)) (n : String),
      (vset.map Prod.fst).Nodup → n ∈ vset.map Prod.fst →
      ((inject doc vset).filter (fun e => e.name == n)).length = 1 ∧
      ∀ e ∈ (inject doc vset).filter (fun e => e.name == n),
        e.environment = none ∧
        e.mask_value = doc.any (fun d => d.name == n && d.mask_value) := by
  intro doc vset
  induction vset generalizing doc with
  | nil => intro n _ hn; simp at hn
  | cons kv rest ih =>
    intro n hnd hn
    simp only [List.map_cons, List.nodup_cons] at hnd
    have hstep : inject doc (kv :: rest) = inject (injectOne doc kv.1 kv.2) rest := rfl
    rcases List.mem_cons.mp hn with heq | hmem
    · -- n is the head key: later keys never touch it again
      subst heq
      rw [hstep, inject_filter_not_mem rest (injectOne doc kv.1 kv.2) kv.1 hnd.1,
        injectOne_filter_self doc kv.1 kv.2]
      refine ⟨rfl, ?_⟩
      intro e he
      simp only [List.mem_singleton] at he
      subst he
      exact ⟨rfl, rfl⟩
    · -- n is a later key: the head injection preserves its entries and mask
      have hne : n ≠ kv.1 := by
        intro h; rw [h] at hmem; exact hnd.1 hmem
      have := ih (injectOne doc kv.1 kv.2) n hnd.2 hmem
      rw [hstep]
      refine ⟨this.1, ?_⟩
      intro e he
      have h2 := this.2 e he
      rw [injectOne_any_other doc kv.1 kv.2 n hne] at h2
      exact h2

def sampleDoc : List VarEntry :=
  [⟨"X", "old-global", true, none⟩, ⟨"X", "old-dev", false, some "Dev"⟩]

theorem C1_inject_invariant_witness :
    (([("X", "v")].map Prod.fst).Nodup ∧ "X" ∈ [("X", "v")].map Prod.fst) ∧
    (((inject sampleDoc [("X", "v")]).filter (fun e => e.name == "X")).length = 1 ∧
      ∀ e ∈ (inject sampleDoc [("X", "v")]).filter (fun e => e.name == "X"),
        e.environment = none ∧
        e.mask_value = sampleDoc.any (fun d => d.name == "X" && d.mask_value)) ∧
    sampleDoc.any (fun d => d.name == "X" && d.mask_value) = true :=
  ⟨⟨by decide, by decide⟩,
   C1_inject_invariant sampleDoc [("X", "v")] "X" (by decide) (by decide),
   by decide⟩

/-! ## C2 — file resolution and ordering -/

theorem mem_dropWhile_isJsSpace (c : Char) (hc : isJsSpace c = false) :
    ∀ l : List Char, c ∈ l → c ∈ l.dropWhile isJsSpace := by
  intro l
  induction l with
  | nil => intro h; exact absurd h (List.not_mem_nil c)
  | cons a as ih =>
    intro h
    cases ha : isJsSpace a with
    | true =>
      rw [List.dropWhile_cons_of_pos ha]
      rcases List.mem_cons.mp h with rfl | h'
      · rw [hc] at ha; exact absurd ha (by simp)
      · exact ih h'
    | false =>
      rw [List.dropWhile_cons_of_neg (by simp [ha])]
      exact h

theorem glob_pattern_trim_ne (pattern : String) (h : isGlobPattern pattern = true) :
    jsTrim pattern ≠ "" := by
  simp only [isGlobPattern, List.any_eq_true] at h
  obtain ⟨c, hc, hglob⟩ := h
  have hns : isJsSpace c = false := by
    simp only [Bool.or_eq_true, decide_eq_true_eq] at hglob
    rcases hglob with ((((h' | h') | h') | h') | h') | h' <;> subst h' <;> decide
  have h1 : c ∈ pattern.toList.dropWhile isJsSpace := mem_dropWhile_isJsSpace c hns _ hc
  have h2 : c ∈ (pattern.toList.dropWhile isJsSpace).reverse := List.mem_reverse.mpr h1
  have h3 : c ∈ (pattern.toList.dropWhile isJsSpace).reverse.dropWhile isJsSpace :=
    mem_dropWhile_isJsSpace c hns _ h2
  have h4 : c ∈ ((pattern.toList.dropWhile isJsSpace).reverse.dropWhile isJsSpace).reverse :=
    List.mem_reverse.mpr h3
  intro hcon
  rw [jsTrim] at hcon
  have : ((pattern.toList.dropWhile isJsSpace).reverse.dropWhile isJsSpace).reverse = [] := by
    have := congrArg String.toList hcon
    simpa using this
  rw [this] at h4
  exact absurd h4 (List.not_mem_nil c)

theorem resolveFiles_glob_spec (fs : FsEnv) (pattern : String)
    (htrans : ∀ a b c, localeLe fs a b = true → localeLe fs b c = true →
      localeLe fs a c = true)
    (htotal : ∀ a b, (localeLe fs a b || localeLe fs b a) = true)
    (hglob : isGlobPattern pattern = true)
    (hmatch : fs.globMatches (normalizeSlashes pattern) ≠ []) :
    ∃ l, resolveFiles fs pattern = .ok l ∧
      l.Perm ((fs.globMatches (normalizeSlashes pattern)).map fs.resolve) ∧
      l.Pairwise (fun a b => fs.localeCompare (basename a) (basename b) ≤ 0) := by
  have htrim := glob_pattern_trim_ne pattern hglob
  refine ⟨((fs.globMatches (normalizeSlashes pattern)).map fs.resolve).mergeSort
    (localeLe fs), ?_, ?_, ?_⟩
  · simp only [resolveFiles]
    rw [if_neg htrim, if_pos hglob,
      if_neg (show ¬ (fs.globMatches (normalizeSlashes pattern)).length = 0 by
        simpa [List.length_eq_zero] using hmatch)]
  · exact List.mergeSort_perm _ _
  · have hsorted := List.sorted_mergeSort htrans htotal
      ((fs.globMatches (normalizeSlashes pattern)).map fs.resolve)
    exact hsorted.imp (fun h => by simpa [localeLe] using h)

/-- Code-point lexicographic comparison over char lists. -/
def lexLeChars : List Char → List Char → Bool
  | [], _ => true
  | _ :: _, [] => false
  | c :: cs, d :: ds => c < d || (c = d && lexLeChars cs ds)

/-- Code-point lexicographic order on strings — what the claim's
"sorted lexicographically" denotes. -/
def lexLe (a b : String) : Bool :=
  lexLeChars a.toList b.toList

/-- A rank function realising what ICU locale collation (Node's default
`localeCompare`) does on the two basenames of the counterexample: case is
only a secondary difference, so `"a1.yaml"` sorts before `"A2.yaml"`
(`'a1.yaml'.localeCompare('A2.yaml') === -1`), the opposite of their
code-point order.  Extended by a constant elsewhere so the comparator is a
total preorder, as a collation is. -/
def icuRank (s : String) : Nat :=
  if s = "a1.yaml" then 0 else if s = "A2.yaml" then 1 else 2

/-- Environment for the counterexample: a glob matching the two mixed-case
files, identity `resolve`, and the ICU-consistent collation above. -/
def icuFs : FsEnv where
  globMatches := fun _ => ["dir/a1.yaml", "dir/A2.yaml"]
  fileExists := fun _ => true
  resolve := fun s => s
  localeCompare := fun a b =>
    if icuRank a < icuRank b then -1 else if icuRank a = icuRank b then 0 else 1

theorem icuFs_localeLe_iff (a b : String) :
    localeLe icuFs a b = true ↔ icuRank (basename a) ≤ icuRank (basename b) := by
  simp only [localeLe, icuFs, decide_eq_true_eq]
  split_ifs with h1 h2 <;> simp <;> omega

theorem icuFs_localeLe_trans : ∀ a b c, localeLe icuFs a b = true →
    localeLe icuFs b c = true → localeLe icuFs a c = true := by
  intro a b c hab hbc
  rw [icuFs_localeLe_iff] at hab hbc ⊢
  omega

theorem icuFs_localeLe_total : ∀ a b,
    (localeLe icuFs a b || localeLe icuFs b a) = true := by
  intro a b
  simp only [Bool.or_eq_true, icuFs_localeLe_iff]
  omega

/-- C2 counterexample: the sort comparator is `localeCompare`, an ICU locale
collation, not code-point order.  Under the collation's documented behaviour
on `a1.yaml` vs `A2.yaml` (case differences are secondary, so
`a1.yaml < A2.yaml`), the glob result is `[a1.yaml, A2.yaml]` — which is not
sorted lexicographically by basename, since in code-point order
`"A2.yaml" < "a1.yaml"`.  So the claim's "sorted lexicographically" is false
of the program on mixed-case matches. -/
theorem C2_counterexample_locale_order :
    resolveFiles icuFs "dir/*.yaml" = .ok ["dir/a1.yaml", "dir/A2.yaml"] ∧
    lexLe (basename "dir/a1.yaml") (basename "dir/A2.yaml") = false := by
  constructor
  · obtain ⟨l, hok, hperm, hsort⟩ := resolveFiles_glob_spec icuFs "dir/*.yaml"
      icuFs_localeLe_trans icuFs_localeLe_total (by decide) (by decide)
    have hperm' : l.Perm ["dir/a1.yaml", "dir/A2.yaml"] := hperm
    have hlen : l.length = 2 := by rw [hperm'.length_eq]; rfl
    rcases l with _ | ⟨x, _ | ⟨y, _ | ⟨z, tl⟩⟩⟩
    · simp at hlen
    · simp at hlen
    · have hx : x = "dir/a1.yaml" ∨ x = "dir/A2.yaml" := by
        have hxm := hperm'.mem_iff.mp (List.mem_cons_self x [y])
        simpa using hxm
      rcases hx with hx | hx
      · subst hx
        have hy : ("dir/A2.yaml" : String) = "dir/a1.yaml" ∨ ("dir/A2.yaml" : String) = y := by
          have hym := hperm'.mem_iff.mpr (show ("dir/A2.yaml" : String) ∈
            ["dir/a1.yaml", "dir/A2.yaml"] by simp)
          simpa using hym
        rcases hy with hy | hy
        · exact absurd hy (by decide)
        · rw [← hy] at hok
          exact hok
      · subst hx
        exfalso
        have hy : ("dir/a1.yaml" : String) = "dir/A2.yaml" ∨ ("dir/a1.yaml" : String) = y := by
          have hym := hperm'.mem_iff.mpr (show ("dir/a1.yaml" : String) ∈
            ["dir/a1.yaml", "dir/A2.yaml"] by simp)
          simpa using hym
        rcases hy with hy | hy
        · exact absurd hy (by decide)
        · have hcmp := (List.pairwise_cons.mp hsort).1 y (List.mem_cons_self y [])
          rw [← hy] at hcmp
          exact absurd hcmp (by decide)
    · simp at hlen
  · decide

/-- C2 (amended): a glob pattern with at least one match resolves to exactly
the matched files (after `path.resolve`), ordered by their basenames
ascending under the environment's `localeCompare` collation — assumed a
consistent comparator (transitive, total), which a locale collation is; this
coincides with lexicographic order on the case-uniform numeric-prefix names
the action documents, but not in general (see the counterexample).  A
literal (non-glob) path that exists resolves to the single-element list
containing it. -/
theorem C2_resolveFiles_sorted :
    (∀ (fs : FsEnv) (pattern : String),
        (∀ a b c, localeLe fs a b = true → localeLe fs b c = true →
          localeLe fs a c = true) →
        (∀ a b, (localeLe fs a b || localeLe fs b a) = true) →
        isGlobPattern pattern = true →
        fs.globMatches (normalizeSlashes pattern) ≠ [] →
        ∃ l, resolveFiles fs pattern = .ok l ∧
          l.Perm ((fs.globMatches (normalizeSlashes pattern)).map fs.resolve) ∧
          l.Pairwise (fun a b => fs.localeCompare (basename a) (basename b) ≤ 0)) ∧
    (∀ (fs : FsEnv) (path : String),
        isGlobPattern path = false → jsTrim path ≠ "" →
        fs.fileExists (fs.resolve path) = true →
        resolveFiles fs path = .ok [fs.resolve path]) := by
  constructor
  · intro fs pattern htrans htotal hglob hmatch
    exact resolveFiles_glob_spec fs pattern htrans htotal hglob hmatch
  · intro fs path hglob htrim hex
    simp only [resolveFiles]
    rw [if_neg htrim, if_neg (by simp [hglob]), if_pos hex]

theorem C2_resolveFiles_sorted_witness :
    ∃ l, resolveFiles icuFs "dir/*.yaml" = .ok l ∧
      l.Perm ((icuFs.globMatches (normalizeSlashes "dir/*.yaml")).map icuFs.resolve) ∧
      l.Pairwise (fun a b => icuFs.localeCompare (basename a) (basename b) ≤ 0) :=
  C2_resolveFiles_sorted.1 icuFs "dir/*.yaml" icuFs_localeLe_trans icuFs_localeLe_total
    (by decide) (by decide)

/-! ## C3 — the `changeset_variables` parser -/

theorem mk_append_mk (a b : List Char) : String.mk a ++ String.mk b = String.mk (a ++ b) := rfl

theorem jsSplitAux_ne_nil (sep : Char) (l : List Char) :
    ∀ cur, jsSplitAux sep l cur ≠ [] := by
  induction l with
  | nil => intro cur; simp [jsSplitAux]
  | cons c cs ih =>
    intro cur
    by_cases h : c = sep <;> simp [jsSplitAux, h, ih]

theorem jsSplitAux_no_sep (sep : Char) (l : List Char) (h : sep ∉ l) :
    ∀ cur, jsSplitAux sep l cur = [String.mk (cur.reverse ++ l)] := by
  induction l with
  | nil => intro cur; simp [jsSplitAux]
  | cons c cs ih =>
    intro cur
    simp only [List.mem_cons, not_or] at h
    rw [jsSplitAux, if_neg (fun hc => h.1 hc.symm)]
    · rw [ih h.2 (c :: cur)]
      simp

theorem jsSplitAux_with_sep (sep : Char) (l : List Char) (h : sep ∈ l) :
    ∀ cur, jsSplitAux sep l cur =
      String.mk (cur.reverse ++ l.takeWhile (fun c => c ≠ sep)) ::
        jsSplitAux sep ((l.dropWhile (fun c => c ≠ sep)).drop 1) [] := by
  induction l with
  | nil => exact absurd h (List.not_mem_nil sep)
  | cons c cs ih =>
    intro cur
    by_cases hc : c = sep
    · subst hc
      rw [jsSplitAux, if_pos rfl]
      simp [List.takeWhile_cons, List.dropWhile_cons]
    · have hcs : sep ∈ cs := by
        rcases List.mem_cons.mp h with h' | h'
        · exact absurd h'.symm hc
        · exact h'
      rw [jsSplitAux, if_neg hc, ih hcs (c :: cur)]
      have ht : (c :: cs).takeWhile (fun x => x ≠ sep) = c :: cs.takeWhile (fun x => x ≠ sep) := by
        simp [List.takeWhile_cons, hc]
      have hd : (c :: cs).dropWhile (fun x => x ≠ sep) = cs.dropWhile (fun x => x ≠ sep) := by
        simp [List.dropWhile_cons, hc]
      rw [ht, hd]
      simp

theorem jsJoin_jsSplitAux (sep : Char) (l : List Char) :
    ∀ cur, jsJoin sep (jsSplitAux sep l cur) = String.mk (cur.reverse ++ l) := by
  induction l with
  | nil => intro cur; simp [jsSplitAux, jsJoin]
  | cons c cs ih =>
    intro cur
    by_cases hc : c = sep
    · subst hc
      rw [jsSplitAux, if_pos rfl]
      rcases hsplit : jsSplitAux c cs [] with _ | ⟨y, ys⟩
      · exact absurd hsplit (jsSplitAux_ne_nil c cs [])
      · have hjoin := ih []
        rw [hsplit] at hjoin
        simp only [List.reverse_nil, List.nil_append] at hjoin
        show String.mk cur.reverse ++ String.mk [c] ++ jsJoin c (y :: ys) = _
        rw [hjoin, mk_append_mk, mk_append_mk]
        simp
    · rw [jsSplitAux, if_neg hc, ih (c :: cur)]
      simp

theorem processLine_eq_spec (m : List (String × String)) (t : String) :
    processLine m t = processLineSpec m t := by
  by_cases hsep : '=' ∈ t.toList
  · have hsplit := jsSplitAux_with_sep '=' t.toList hsep []
    simp only [List.reverse_nil, List.nil_append] at hsplit
    rcases htail : jsSplitAux '=' ((t.toList.dropWhile (fun c => c ≠ '=')).drop 1) []
      with _ | ⟨y, ys⟩
    · exact absurd htail (jsSplitAux_ne_nil '=' _ [])
    · rw [htail] at hsplit
      have hjoin : jsJoin '=' (y :: ys) = rightOfEq t := by
        rw [← htail, jsJoin_jsSplitAux]
        simp [rightOfEq]
      have hpl : processLine m t =
          (if leftOfEq t = "" then .error (invalidLineMsg t)
           else .ok (objInsert m (jsTrim (leftOfEq t)) (jsTrim (jsJoin '=' (y :: ys))))) := by
        rw [processLine, jsSplit, hsplit]; rfl
      rw [hpl, hjoin, processLineSpec, if_pos hsep]
  · have hsplit := jsSplitAux_no_sep '=' t.toList hsep []
    simp only [List.reverse_nil, List.nil_append] at hsplit
    rw [processLine, processLineSpec, if_neg hsep, jsSplit, hsplit]

theorem parseLines_eq_spec (lines : List String) :
    ∀ m, parseLines m lines = parseLinesSpec m lines := by
  induction lines with
  | nil => intro m; rfl
  | cons line rest ih =>
    intro m
    rw [parseLines, parseLinesSpec]
    by_cases hskip : jsTrim line = "" || jsStartsWithChar (jsTrim line) '#'
    · simp only [hskip, if_true]
      exact ih m
    · simp only [hskip, if_false]
      rw [processLine_eq_spec]
      rcases processLineSpec m (jsTrim line) with e | m'
      · rfl
      · exact ih m'

/-- C3 counterexample: the line `=v` contains an `=` and is neither blank nor
a comment, so by the claim it should parse (key `""`, value `"v"`); the code
instead rejects it with the malformed-line error, because `!key` is also
truthy when the part left of the first `=` is empty. -/
theorem C3_counterexample_empty_key :
    ('=' ∈ "=v".toList) ∧
    parseChangesetVariables "=v" =
      .error "Invalid changeset_variables format. Expected KEY=VALUE on each line, got: =v" :=
  ⟨by decide, rfl⟩

/-- C3 (amended): the parser behaves exactly as the claim describes — split
on newlines, trim each line, skip blank lines and `#` comments, key left of
the first `=` (trimmed), value right of it including further `=`s (trimmed),
`none` for empty or whitespace-only raw input — except that the
malformed-line error is raised not only when a non-blank, non-comment line
contains no `=` but also when the part left of the first `=` is empty (the
line starts with `=`).  `parseChangesetVariablesSpec` is this description
written out with `leftOfEq`/`rightOfEq`. -/
theorem C3_parse_refined (input : String) :
    parseChangesetVariables input = parseChangesetVariablesSpec input := by
  rw [parseChangesetVariables, parseChangesetVariablesSpec]
  by_cases hempty : input = "" || jsTrim input = ""
  · simp only [hempty, if_true]
  · simp only [hempty, if_false]
    rw [parseLines_eq_spec]

/-! ## C10 — strategy gating -/

/-- C10: the `validate_first` two-phase flow is entered only when
`validate_before_execute` is enabled and `validate_only` is disabled.  With
`validate_before_execute = false` (first conjunct) or `validate_only = true`
(second conjunct), a run configured with `execution_strategy =
'validate_first'` behaves identically to a `per_file` run. -/
theorem C10_strategy_gate :
    ∀ (validateOnly failFast : Bool) (filePaths : List String)
      (valEnv execEnv : String → RemoteEnv) (timeout : Nat),
      runCore "validate_first" validateOnly false failFast filePaths valEnv execEnv timeout =
        runCore "per_file" validateOnly false failFast filePaths valEnv execEnv timeout ∧
      runCore "validate_first" true true failFast filePaths valEnv execEnv timeout =
        runCore "per_file" true true failFast filePaths valEnv execEnv timeout := by
  intro validateOnly failFast filePaths valEnv execEnv timeout
  constructor
  · rw [runCore, runCore,
      if_neg (fun h => absurd h.2.2 (by decide)),
      if_neg (fun h => absurd h.1 (by decide))]
  · rw [runCore, runCore,
      if_neg (fun h => absurd h.2.1 (by decide)),
      if_neg (fun h => absurd h.1 (by decide))]

/-! ## Reachable statuses and error presence of per-file results -/

/-- Every result record the orchestrator can produce has one of the four
reachable statuses, and carries an error message whenever it is not
successful (`SUBMITTED` appears in `STATUS_PRIORITY` and in the final filter
but is never produced). -/
def goodRec (r : FileRec) : Prop :=
  (r.status = "SUCCESS" ∨ r.status = "FAILURE" ∨ r.status = "REVOKED" ∨ r.status = "TIMEOUT") ∧
  (r.status ≠ "SUCCESS" → r.error.isSome = true)

theorem validateFile_good (env : RemoteEnv) (t : Nat) (v : OpReturn)
    (h : validateFile env t = .ok v) :
    (v.status = "SUCCESS" ∨ v.status = "FAILURE" ∨ v.status = "REVOKED" ∨ v.status = "TIMEOUT") ∧
    (v.status ≠ "SUCCESS" → v.error.isSome = true) := by
  rcases env with ⟨submit, events⟩
  cases submit with
  | netError m => simp [validateFile] at h
  | httpFail c b st => simp [validateFile] at h
  | ok envl =>
    rcases envl with ⟨tid?⟩
    cases tid? with
    | none => simp [validateFile] at h
    | some tid =>
      by_cases htid : tid = "" ∨ jsTrim tid = ""
      · simp [validateFile, htid] at h
      · rcases hpoll : (pollTask t events).1 with o | msg | _
        · cases o with
          | success res =>
            simp only [validateFile, if_neg htid, hpoll] at h
            by_cases hiv : res.is_valid.getD false = true
            · rw [if_pos hiv] at h
              cases h; simp
            · rw [if_neg hiv] at h
              cases h; simp
          | failure e => simp only [validateFile, if_neg htid, hpoll] at h; cases h; simp
          | revoked => simp only [validateFile, if_neg htid, hpoll] at h; cases h; simp
          | timeout => simp only [validateFile, if_neg htid, hpoll] at h; cases h; simp
        · simp [validateFile, htid, hpoll] at h
        · simp [validateFile, htid, hpoll] at h

theorem executeFile_good (env : RemoteEnv) (t : Nat) (v : OpReturn)
    (h : executeFile env t = .ok v) :
    (v.status = "SUCCESS" ∨ v.status = "FAILURE" ∨ v.status = "REVOKED" ∨ v.status = "TIMEOUT") ∧
    (v.status ≠ "SUCCESS" → v.error.isSome = true) := by
  rcases env with ⟨submit, events⟩
  cases submit with
  | netError m => simp [executeFile] at h
  | httpFail c b st => simp [executeFile] at h
  | ok envl =>
    rcases envl with ⟨tid?⟩
    cases tid? with
    | none => simp [executeFile] at h
    | some tid =>
      by_cases htid : tid = "" ∨ jsTrim tid = ""
      · simp [executeFile, htid] at h
      · rcases hpoll : (pollTask t events).1 with o | msg | _
        · cases o with
          | success res => simp only [executeFile, if_neg htid, hpoll] at h; cases h; simp
          | failure e => simp only [executeFile, if_neg htid, hpoll] at h; cases h; simp
          | revoked => simp only [executeFile, if_neg htid, hpoll] at h; cases h; simp
          | timeout => simp only [executeFile, if_neg htid, hpoll] at h; cases h; simp
        · simp [executeFile, htid, hpoll] at h
        · simp [executeFile, htid, hpoll] at h

theorem processSingleFile_good (f : String) (vo vbe : Bool)
    (valEnv execEnv : String → RemoteEnv) (t : Nat) (r : FileRec)
    (h : (processSingleFile f vo vbe valEnv execEnv t).exit = .ok r) : goodRec r := by
  have hexec : ∀ r', (match executeFile (execEnv f) t with
      | .starved => ProcExit.starved
      | .thrown msg => ProcExit.thrown msg
      | .ok e => ProcExit.ok { file := f, status := e.status, result := e.result, error := e.error })
        = ProcExit.ok r' → goodRec r' := by
    intro r' h'
    rcases he : executeFile (execEnv f) t with e | msg | _ <;> rw [he] at h'
    · cases h'
      exact ⟨(executeFile_good _ t e he).1, (executeFile_good _ t e he).2⟩
    · simp at h'
    · simp at h'
  rw [processSingleFile] at h
  by_cases hvb : (vo || vbe) = true
  · rw [if_pos hvb] at h
    rcases hv : validateFile (valEnv f) t with v | msg | _
    · simp only [hv] at h
      by_cases hst : v.status ≠ "SUCCESS"
      · rw [if_pos hst] at h
        have h' : ProcExit.ok
            { file := f, status := v.status, result := v.result, error := v.error } =
            ProcExit.ok r := h
        cases h'
        exact ⟨(validateFile_good _ t v hv).1, (validateFile_good _ t v hv).2⟩
      · rw [if_neg hst] at h
        by_cases hvo : vo = true
        · rw [if_pos hvo] at h
          have h' : ProcExit.ok
              { file := f, status := "SUCCESS", result := v.result } = ProcExit.ok r := h
          cases h'
          exact ⟨Or.inl rfl, fun hc => absurd rfl hc⟩
        · rw [if_neg hvo] at h
          exact hexec r h
    · simp only [hv] at h
      exact absurd h (by simp)
    · simp only [hv] at h
      exact absurd h (by simp)
  · rw [if_neg hvb] at h
    exact hexec r h

theorem runLoop_good (process : String → ProcOut)
    (hproc : ∀ f r, (process f).exit = .ok r → goodRec r) (failFast : Bool) :
    ∀ (fps : List String) (acc out : LoopOut),
      (∀ r ∈ acc.results, goodRec r) →
      runLoop process failFast fps acc = some out →
      ∀ r ∈ out.results, goodRec r := by
  intro fps
  induction fps with
  | nil =>
    intro acc out hacc hrun
    simp only [runLoop] at hrun
    cases hrun
    exact hacc
  | cons f rest ih =>
    intro acc out hacc hrun
    simp only [runLoop] at hrun
    rcases hp : (process f).exit with r0 | msg | _ <;> simp only [hp] at hrun
    · have hg : goodRec r0 := hproc f r0 hp
      have hacc' : ∀ r ∈ acc.results ++ [r0], goodRec r := by
        intro r hr
        rcases List.mem_append.mp hr with h | h
        · exact hacc r h
        · cases List.mem_singleton.mp h; exact hg
      by_cases hff : (r0.error.isSome && failFast) = true
      · rw [if_pos hff] at hrun; cases hrun; exact hacc'
      · rw [if_neg hff] at hrun
        exact ih _ out hacc' hrun
    · have hacc' : ∀ r ∈ acc.results ++
          [({ file := f, status := "FAILURE", result := {}, error := some msg } : FileRec)],
          goodRec r := by
        intro r hr
        rcases List.mem_append.mp hr with h | h
        · exact hacc r h
        · cases List.mem_singleton.mp h
          exact ⟨Or.inr (Or.inl rfl), fun _ => rfl⟩
      by_cases hff : failFast = true
      · rw [if_pos hff] at hrun; cases hrun; exact hacc'
      · rw [if_neg hff] at hrun
        exact ih _ out hacc' hrun
    · exact absurd hrun (by simp)

/-- The record phase 1 pushes for a file whose validation returned a
non-`SUCCESS` status. -/
def valRec (f : String) (v : OpReturn) : FileRec :=
  { file := f, taskId := v.taskId, status := v.status, result := v.result, error := v.error }

/-- The record the loops push for a file whose operation threw `msg`. -/
def thrownRec (f msg : String) : FileRec :=
  { file := f, status := "FAILURE", result := {}, error := some msg }

theorem phase1_invariant (valEnv : String → RemoteEnv) (t : Nat) (ff : Bool) :
    ∀ (fps : List String) (acc out : LoopOut),
      phase1 valEnv t ff fps acc = some out →
      out.execCalls = acc.execCalls ∧
      ∃ suffix, out.results = acc.results ++ suffix ∧
        ∀ r ∈ suffix, goodRec r ∧ r.status ≠ "SUCCESS" := by
  intro fps
  induction fps with
  | nil =>
    intro acc out h
    simp only [phase1] at h
    cases h
    exact ⟨rfl, [], by simp, by simp⟩
  | cons f rest ih =>
    intro acc out h
    simp only [phase1] at h
    rcases hv : validateFile (valEnv f) t with v | msg | _ <;> simp only [hv] at h
    · by_cases hst : v.status ≠ "SUCCESS"
      · rw [if_pos hst] at h
        have hgood : goodRec (valRec f v) :=
          ⟨(validateFile_good _ t v hv).1, (validateFile_good _ t v hv).2⟩
        by_cases hff : ff = true
        · rw [if_pos hff] at h; cases h
          exact ⟨rfl, [valRec f v], rfl,
            fun r hr => by cases List.mem_singleton.mp hr; exact ⟨hgood, hst⟩⟩
        · rw [if_neg hff] at h
          obtain ⟨he, suffix, hres, hsuf⟩ := ih _ out h
          refine ⟨he, valRec f v :: suffix, ?_, ?_⟩
          · rw [hres]
            show (acc.results ++ [valRec f v]) ++ suffix = _
            simp
          · intro r hr
            rcases List.mem_cons.mp hr with rfl | hr'
            · exact ⟨hgood, hst⟩
            · exact hsuf r hr'
      · rw [if_neg hst] at h
        have hskip := ih ⟨acc.results, acc.valCalls + 1, acc.execCalls⟩ out h
        exact ⟨hskip.1, hskip.2⟩
    · have hgood : goodRec (thrownRec f msg) := ⟨Or.inr (Or.inl rfl), fun _ => rfl⟩
      have hns : (thrownRec f msg).status ≠ "SUCCESS" :=
        fun hcon => absurd hcon (show ("FAILURE" : String) ≠ "SUCCESS" by decide)
      by_cases hff : ff = true
      · rw [if_pos hff] at h; cases h
        exact ⟨rfl, [thrownRec f msg], rfl,
          fun r hr => by cases List.mem_singleton.mp hr; exact ⟨hgood, hns⟩⟩
      · rw [if_neg hff] at h
        obtain ⟨he, suffix, hres, hsuf⟩ := ih _ out h
        refine ⟨he, thrownRec f msg :: suffix, ?_, ?_⟩
        · rw [hres]
          show (acc.results ++ [thrownRec f msg]) ++ suffix = _
          simp
        · intro r hr
          rcases List.mem_cons.mp hr with rfl | hr'
          · exact ⟨hgood, hns⟩
          · exact hsuf r hr'
    · exact absurd h (by simp)

theorem phase1_failure_recorded (valEnv : String → RemoteEnv) (t : Nat) (ff : Bool) :
    ∀ (fps : List String) (acc out : LoopOut),
      (∃ f ∈ fps, valOk valEnv t f = false) →
      phase1 valEnv t ff fps acc = some out →
      ∃ r ∈ out.results, r.status ≠ "SUCCESS" := by
  intro fps
  induction fps with
  | nil => intro acc out hex _; simp at hex
  | cons f rest ih =>
    intro acc out hex h
    simp only [phase1] at h
    rcases hv : validateFile (valEnv f) t with v | msg | _ <;> simp only [hv] at h
    · by_cases hst : v.status ≠ "SUCCESS"
      · rw [if_pos hst] at h
        by_cases hff : ff = true
        · rw [if_pos hff] at h; cases h
          exact ⟨valRec f v, by simp [valRec], hst⟩
        · rw [if_neg hff] at h
          obtain ⟨_, suffix, hres, _⟩ :=
            phase1_invariant valEnv t ff rest ⟨acc.results ++ [valRec f v],
              acc.valCalls + 1, acc.execCalls⟩ out h
          refine ⟨valRec f v, ?_, hst⟩
          rw [hres]; simp
      · rw [if_neg hst] at h
        have hsucc : v.status = "SUCCESS" := not_not.mp hst
        have hex' : ∃ g ∈ rest, valOk valEnv t g = false := by
          rcases hex with ⟨g, hg, hgf⟩
          rcases List.mem_cons.mp hg with rfl | hg'
          · simp only [valOk, hv, hsucc] at hgf
            simp at hgf
          · exact ⟨g, hg', hgf⟩
        exact ih ⟨acc.results, acc.valCalls + 1, acc.execCalls⟩ out hex' h
    · have hns : (thrownRec f msg).status ≠ "SUCCESS" :=
        fun hcon => absurd hcon (show ("FAILURE" : String) ≠ "SUCCESS" by decide)
      by_cases hff : ff = true
      · rw [if_pos hff] at h; cases h
        exact ⟨thrownRec f msg, by simp [thrownRec], hns⟩
      · rw [if_neg hff] at h
        obtain ⟨_, suffix, hres, _⟩ :=
          phase1_invariant valEnv t ff rest ⟨acc.results ++ [thrownRec f msg],
            acc.valCalls + 1, acc.execCalls⟩ out h
        refine ⟨thrownRec f msg, ?_, hns⟩
        rw [hres]; simp
    · exact absurd h (by simp)

/-- The record phase 1 pushes for a file whose validation did not succeed
(used to characterise the `fail_fast = false` run). -/
def valFailRec (valEnv : String → RemoteEnv) (t : Nat) (f : String) : FileRec :=
  match validateFile (valEnv f) t with
  | .ok v => valRec f v
  | .thrown msg => thrownRec f msg
  | .starved => { file := f, status := "", result := {} }

theorem phase1_noff (valEnv : String → RemoteEnv) (t : Nat) :
    ∀ (fps : List String) (acc out : LoopOut),
      phase1 valEnv t false fps acc = some out →
      out.results = acc.results ++
        (fps.filter (fun f => !(valOk valEnv t f))).map (valFailRec valEnv t) := by
  intro fps
  induction fps with
  | nil =>
    intro acc out h
    simp only [phase1] at h
    cases h
    simp
  | cons f rest ih =>
    intro acc out h
    simp only [phase1] at h
    rcases hv : validateFile (valEnv f) t with v | msg | _ <;> simp only [hv] at h
    · by_cases hst : v.status ≠ "SUCCESS"
      · rw [if_pos hst] at h
        rw [if_neg (show ¬(false = true) by decide)] at h
        have hvf : valOk valEnv t f = false := by
          simp only [valOk, hv]
          exact beq_eq_false_iff_ne.mpr hst
        have hrec : valFailRec valEnv t f = valRec f v := by simp only [valFailRec, hv]
        rw [List.filter_cons_of_pos (by simp [hvf]), List.map_cons, hrec]
        have := ih ⟨acc.results ++ [valRec f v], acc.valCalls + 1, acc.execCalls⟩ out h
        rw [this]
        show (acc.results ++ [valRec f v]) ++ _ = _
        simp
      · rw [if_neg hst] at h
        have hsucc : v.status = "SUCCESS" := not_not.mp hst
        have hvf : valOk valEnv t f = true := by
          simp only [valOk, hv, hsucc]
          rfl
        rw [List.filter_cons_of_neg (by simp [hvf])]
        exact ih ⟨acc.results, acc.valCalls + 1, acc.execCalls⟩ out h
    · rw [if_neg (show ¬(false = true) by decide)] at h
      have hvf : valOk valEnv t f = false := by simp only [valOk, hv]
      have hrec : valFailRec valEnv t f = thrownRec f msg := by simp only [valFailRec, hv]
      rw [List.filter_cons_of_pos (by simp [hvf]), List.map_cons, hrec]
      have := ih ⟨acc.results ++ [thrownRec f msg], acc.valCalls + 1, acc.execCalls⟩ out h
      rw [this]
      show (acc.results ++ [thrownRec f msg]) ++ _ = _
      simp
    · exact absurd h (by simp)

/-! ## C6 / C9 — the `validate_first` strategy -/

def demoValOkEnv : RemoteEnv :=
  ⟨.ok ⟨some "task-ok"⟩, [.payload "SUCCESS" (some { is_valid := some true }) none]⟩

def demoValBadEnv : RemoteEnv :=
  ⟨.ok ⟨some "task-bad"⟩, [.payload "SUCCESS" (some { is_valid := some false }) none]⟩

/-- Remote behaviour where validation of `f2` fails (`is_valid = false`) and
every other file validates successfully. -/
def demoValEnv : String → RemoteEnv :=
  fun f => if f == "f2" then demoValBadEnv else demoValOkEnv

def demoExecEnv : String → RemoteEnv :=
  fun _ => ⟨.ok ⟨some "task-exec"⟩, [.payload "SUCCESS" (some {}) none]⟩

/-- C6: under the `validate_first` strategy, whenever some file's validation
does not succeed, the run performs no execute submission at all, sets the
aggregate status output to `FAILURE` and throws; in particular with 3 files,
file 2 failing validation and `fail_fast = false`, exactly 3 validate
submissions and 0 execute submissions happen and the status is `FAILURE`.
(`runCore ... = none` is the modelling artifact of an operation starving for
poll events; it corresponds to no real run.) -/
theorem C6_validate_first_blocks_execution :
    (∀ (failFast : Bool) (filePaths : List String) (valEnv execEnv : String → RemoteEnv)
        (timeout : Nat),
        (∃ f ∈ filePaths, valOk valEnv timeout f = false) →
        runCore "validate_first" false true failFast filePaths valEnv execEnv timeout = none ∨
        (runCore "validate_first" false true failFast filePaths valEnv execEnv timeout).map
          (fun o => (o.execCalls, o.statusOutput, o.thrown.isSome)) =
          some (0, "FAILURE", true)) ∧
    (runCore "validate_first" false true false ["f1", "f2", "f3"] demoValEnv demoExecEnv 10).map
      (fun o => (o.valCalls, o.execCalls, o.statusOutput)) = some (3, 0, "FAILURE") := by
  constructor
  · intro ff fps valEnv execEnv t hex
    rcases hr : runCore "validate_first" false true ff fps valEnv execEnv t with _ | out
    · exact Or.inl rfl
    · right
      rw [runCore, if_pos ⟨rfl, rfl, rfl⟩] at hr
      rcases hp : phase1 valEnv t ff fps ⟨[], 0, 0⟩ with _ | l1
      · simp only [hp] at hr
        exact absurd hr (by simp)
      · simp only [hp] at hr
        obtain ⟨r0, hr0mem, hr0⟩ := phase1_failure_recorded valEnv t ff fps ⟨[], 0, 0⟩ l1 hex hp
        have hmemf : r0 ∈ l1.results.filter (fun r => !(r.status == "SUCCESS")) :=
          List.mem_filter.mpr ⟨hr0mem, by simp [beq_eq_false_iff_ne, hr0]⟩
        have hne : ¬ (l1.results.filter (fun r => !(r.status == "SUCCESS"))).isEmpty = true := by
          intro hc
          rw [List.isEmpty_iff.mp hc] at hmemf
          exact absurd hmemf (List.not_mem_nil r0)
        rw [if_neg hne] at hr
        obtain ⟨he, _⟩ := phase1_invariant valEnv t ff fps ⟨[], 0, 0⟩ l1 hp
        cases hr
        simp [he]
  · decide

theorem C6_validate_first_blocks_execution_witness :
    (∃ f ∈ ["f1", "f2", "f3"], valOk demoValEnv 10 f = false) ∧
    (runCore "validate_first" false true true ["f1", "f2", "f3"] demoValEnv demoExecEnv 10 =
        none ∨
      (runCore "validate_first" false true true ["f1", "f2", "f3"] demoValEnv demoExecEnv 10).map
        (fun o => (o.execCalls, o.statusOutput, o.thrown.isSome)) = some (0, "FAILURE", true)) :=
  ⟨by decide,
   C6_validate_first_blocks_execution.1 true ["f1", "f2", "f3"] demoValEnv demoExecEnv 10
     (by decide)⟩

/-- C9 counterexample: 3 files under `validate_first` with `fail_fast = false`
where only `f2` fails validation — all 3 validations are attempted, but the
reported `result` output contains a single entry (for `f2`): the files that
validated successfully are absent, contradicting the claim that every
attempted file appears in the output. -/
theorem C9_counterexample_success_omitted :
    (runCore "validate_first" false true false ["f1", "f2", "f3"] demoValEnv demoExecEnv 10).map
      (fun o => (o.valCalls, o.resultOutput.map (fun x => x.file))) = some (3, ["f2"]) := by
  decide

/-- C9 (amended): when the `validate_first` phase fails with
`fail_fast = false`, the reported `result` output contains exactly one entry
per file whose validation did *not* succeed, in file order — files that
validated successfully are omitted from the output. -/
theorem C9_failure_entries_only :
    ∀ (filePaths : List String) (valEnv execEnv : String → RemoteEnv) (timeout : Nat),
      (∃ f ∈ filePaths, valOk valEnv timeout f = false) →
      runCore "validate_first" false true false filePaths valEnv execEnv timeout = none ∨
      (runCore "validate_first" false true false filePaths valEnv execEnv timeout).map
        (fun o => o.resultOutput) =
        some ((filePaths.filter (fun f => !(valOk valEnv timeout f))).map
          (fun f => mapResult (valFailRec valEnv timeout f))) := by
  intro fps valEnv execEnv t hex
  rcases hr : runCore "validate_first" false true false fps valEnv execEnv t with _ | out
  · exact Or.inl rfl
  · right
    rw [runCore, if_pos ⟨rfl, rfl, rfl⟩] at hr
    rcases hp : phase1 valEnv t false fps ⟨[], 0, 0⟩ with _ | l1
    · simp only [hp] at hr
      exact absurd hr (by simp)
    · simp only [hp] at hr
      obtain ⟨r0, hr0mem, hr0⟩ := phase1_failure_recorded valEnv t false fps ⟨[], 0, 0⟩ l1 hex hp
      have hmemf : r0 ∈ l1.results.filter (fun r => !(r.status == "SUCCESS")) :=
        List.mem_filter.mpr ⟨hr0mem, by simp [beq_eq_false_iff_ne, hr0]⟩
      have hne : ¬ (l1.results.filter (fun r => !(r.status == "SUCCESS"))).isEmpty = true := by
        intro hc
        rw [List.isEmpty_iff.mp hc] at hmemf
        exact absurd hmemf (List.not_mem_nil r0)
      rw [if_neg hne] at hr
      have hres := phase1_noff valEnv t fps ⟨[], 0, 0⟩ l1 hp
      cases hr
      show some (l1.results.map mapResult) = _
      rw [hres]
      show some ((([] : List FileRec) ++ _).map mapResult) = _
      rw [List.nil_append, List.map_map]
      rfl

theorem C9_failure_entries_only_witness :
    (∃ f ∈ ["f1", "f2", "f3"], valOk demoValEnv 10 f = false) ∧
    (runCore "validate_first" false true false ["f1", "f2", "f3"] demoValEnv demoExecEnv 10 =
        none ∨
      (runCore "validate_first" false true false ["f1", "f2", "f3"] demoValEnv demoExecEnv
          10).map (fun o => o.resultOutput) =
        some ((["f1", "f2", "f3"].filter (fun f => !(valOk demoValEnv 10 f))).map
          (fun f => mapResult (valFailRec demoValEnv 10 f)))) :=
  ⟨by decide,
   C9_failure_entries_only ["f1", "f2", "f3"] demoValEnv demoExecEnv 10 (by decide)⟩

/-! ## C8 — run-level error propagation -/

theorem filter_bad_eq (results : List FileRec) (hgood : ∀ r ∈ results, goodRec r) :
    results.filter (fun r => !(r.status == "SUCCESS") && !(r.status == "SUBMITTED")) =
      results.filter (fun r => !(r.status == "SUCCESS")) := by
  apply List.filter_congr
  intro r hr
  have hsub : (r.status == "SUBMITTED") = false := by
    rcases (hgood r hr).1 with h | h | h | h <;> rw [h] <;> rfl
  rw [hsub]
  simp

theorem prio_bad_le_two (r : FileRec) (hg : goodRec r) (hne : r.status ≠ "SUCCESS") :
    prio r.status ≤ 2 := by
  rcases hg.1 with h | h | h | h
  · exact absurd h hne
  · rw [h]; decide
  · rw [h]; decide
  · rw [h]; decide

theorem worst_in_bad_set (results : List FileRec) (hgood : ∀ r ∈ results, goodRec r)
    (r : FileRec) (hr : r ∈ results) (hne : r.status ≠ "SUCCESS") :
    worstStatus results = "FAILURE" ∨ worstStatus results = "TIMEOUT" ∨
      worstStatus results = "REVOKED" := by
  have hspec := worstStatus_foldl_spec results "SUCCESS"
  have hmin : prio (worstStatus results) ≤ prio r.status := hspec.2.2 r hr
  have hle2 : prio (worstStatus results) ≤ 2 :=
    le_trans hmin (prio_bad_le_two r (hgood r hr) hne)
  rcases hspec.1 with hs | hs
  · exfalso
    have hw : worstStatus results = "SUCCESS" := hs
    rw [hw] at hle2
    exact absurd hle2 (by decide)
  · have hw : worstStatus results ∈ results.map (fun r => r.status) := hs
    obtain ⟨s, hsmem, hseq⟩ := List.mem_map.mp hw
    have h4 := (hgood s hsmem).1
    rw [hseq] at h4
    rcases h4 with h | h | h | h
    · rw [h] at hle2; exact absurd hle2 (by decide)
    · exact Or.inl h
    · exact Or.inr (Or.inr h)
    · exact Or.inr (Or.inl h)

theorem runCore_results_good (strategy : String) (vo vbe ff : Bool) (fps : List String)
    (valEnv execEnv : String → RemoteEnv) (t : Nat) (out : RunOutput)
    (h : runCore strategy vo vbe ff fps valEnv execEnv t = some out) :
    ∀ r ∈ out.results, goodRec r := by
  rw [runCore] at h
  by_cases hcond : strategy = "validate_first" ∧ vo = false ∧ vbe = true
  · rw [if_pos hcond] at h
    rcases hp : phase1 valEnv t ff fps ⟨[], 0, 0⟩ with _ | l1 <;> simp only [hp] at h
    · exact absurd h (by simp)
    · have hl1good : ∀ r ∈ l1.results, goodRec r := by
        obtain ⟨_, suffix, hres, hsuf⟩ := phase1_invariant valEnv t ff fps ⟨[], 0, 0⟩ l1 hp
        intro r hr
        rw [hres] at hr
        rcases List.mem_append.mp hr with h' | h'
        · exact absurd h' (List.not_mem_nil r)
        · exact (hsuf r h').1
      by_cases hemp : (l1.results.filter (fun r => !(r.status == "SUCCESS"))).isEmpty = true
      · rw [if_pos hemp] at h
        rcases hl2 : runLoop (fun f => processSingleFile f false false valEnv execEnv t)
            ff fps l1 with _ | l2 <;> simp only [hl2] at h
        · exact absurd h (by simp)
        · cases h
          exact runLoop_good _
            (fun f r hr => processSingleFile_good f false false valEnv execEnv t r hr)
            ff fps l1 l2 hl1good hl2
      · rw [if_neg hemp] at h
        cases h
        exact hl1good
  · rw [if_neg hcond] at h
    rcases hl : runLoop (fun f => processSingleFile f vo vbe valEnv execEnv t) ff fps ⟨[], 0, 0⟩
      with _ | l <;> simp only [hl] at h
    · exact absurd h (by simp)
    · cases h
      exact runLoop_good _
        (fun f r hr => processSingleFile_good f vo vbe valEnv execEnv t r hr)
        ff fps ⟨[], 0, 0⟩ l (by simp) hl

theorem runError_spec (results : List FileRec) (hgood : ∀ r ∈ results, goodRec r) :
    ((runError results).isSome = true ↔
      (worstStatus results = "FAILURE" ∨ worstStatus results = "TIMEOUT" ∨
        worstStatus results = "REVOKED")) ∧
    (∀ r, results.filter (fun x => !(x.status == "SUCCESS")) = [r] →
      runError results = some (r.error.getD "") ∧ r.error.isSome = true) ∧
    (∀ msg, runError results = some msg →
      1 < (results.filter (fun x => !(x.status == "SUCCESS"))).length →
      msg = tailMsg (results.filter (fun x => !(x.status == "SUCCESS"))).length
        results.length) := by
  have hfe := filter_bad_eq results hgood
  refine ⟨?_, ?_, ?_⟩
  · rw [runError]
    by_cases hagg : worstStatus results = "FAILURE" ∨ worstStatus results = "TIMEOUT" ∨
        worstStatus results = "REVOKED"
    · rw [if_pos hagg]; simpa using hagg
    · rw [if_neg hagg]; simpa using hagg
  · intro r hbad
    have hrmem_f : r ∈ results.filter (fun x => !(x.status == "SUCCESS")) := by
      rw [hbad]; exact List.mem_singleton.mpr rfl
    obtain ⟨hrmem, hrpred⟩ := List.mem_filter.mp hrmem_f
    have hrne : r.status ≠ "SUCCESS" := by simpa using hrpred
    have hagg := worst_in_bad_set results hgood r hrmem hrne
    constructor
    · rw [runError, if_pos hagg, hfe, hbad]
    · exact (hgood r hrmem).2 hrne
  · intro msg hsome hlen
    rw [runError] at hsome
    by_cases hagg : worstStatus results = "FAILURE" ∨ worstStatus results = "TIMEOUT" ∨
        worstStatus results = "REVOKED"
    · rw [if_pos hagg, hfe] at hsome
      rcases hb : results.filter (fun x => !(x.status == "SUCCESS")) with _ | ⟨r1, rest1⟩
      · rw [hb] at hlen; simp at hlen
      · rcases rest1 with _ | ⟨r2, rest⟩
        · rw [hb] at hlen; simp at hlen
        · rw [hb] at hsome
          injection hsome with h1
          rw [hb, ← h1]
    · rw [if_neg hagg] at hsome
      exact absurd hsome (by simp)

/-- C8: the run throws exactly when the aggregate `status` output is
`FAILURE`, `TIMEOUT` or `REVOKED`; when exactly one file result is
non-successful, the thrown message is that file's error verbatim (and such an
error is always present); when more than one file is non-successful, the
message is one of the two count summaries (the `validate_first` phase-1
summary over the file list, or the final summary over the result list). -/
theorem C8_run_failure_propagation :
    ∀ (strategy : String) (validateOnly validateBeforeExecute failFast : Bool)
      (filePaths : List String) (valEnv execEnv : String → RemoteEnv) (timeout : Nat)
      (out : RunOutput),
      runCore strategy validateOnly validateBeforeExecute failFast filePaths valEnv execEnv
        timeout = some out →
      (out.thrown.isSome = true ↔
        (out.statusOutput = "FAILURE" ∨ out.statusOutput = "TIMEOUT" ∨
          out.statusOutput = "REVOKED")) ∧
      (∀ r, out.results.filter (fun x => !(x.status == "SUCCESS")) = [r] →
        out.thrown = some (r.error.getD "") ∧ r.error.isSome = true) ∧
      (∀ msg, out.thrown = some msg →
        1 < (out.results.filter (fun x => !(x.status == "SUCCESS"))).length →
        msg = vfMsg (out.results.filter (fun x => !(x.status == "SUCCESS"))).length
            filePaths.length ∨
          msg = tailMsg (out.results.filter (fun x => !(x.status == "SUCCESS"))).length
            out.results.length) := by
  intro strategy vo vbe ff fps valEnv execEnv t out h
  have hgoodall := runCore_results_good strategy vo vbe ff fps valEnv execEnv t out h
  rw [runCore] at h
  by_cases hcond : strategy = "validate_first" ∧ vo = false ∧ vbe = true
  · rw [if_pos hcond] at h
    rcases hp : phase1 valEnv t ff fps ⟨[], 0, 0⟩ with _ | l1 <;> simp only [hp] at h
    · exact absurd h (by simp)
    · by_cases hemp : (l1.results.filter (fun r => !(r.status == "SUCCESS"))).isEmpty = true
      · rw [if_pos hemp] at h
        rcases hl2 : runLoop (fun f => processSingleFile f false false valEnv execEnv t)
            ff fps l1 with _ | l2 <;> simp only [hl2] at h
        · exact absurd h (by simp)
        · cases h
          obtain ⟨p1, p2, p3⟩ := runError_spec l2.results hgoodall
          exact ⟨p1, p2, fun msg hm hl => Or.inr (p3 msg hm hl)⟩
      · rw [if_neg hemp] at h
        cases h
        refine ⟨by simp, ?_, ?_⟩
        · intro r hbad
          have hbad' : l1.results.filter (fun x => !(x.status == "SUCCESS")) = [r] := hbad
          constructor
          · show some (match l1.results.filter (fun r => !(r.status == "SUCCESS")) with
              | [r'] => r'.error.getD ""
              | _ => vfMsg (l1.results.filter (fun r => !(r.status == "SUCCESS"))).length
                  fps.length) = some (r.error.getD "")
            rw [hbad']
          · have hrmem_f : r ∈ l1.results.filter (fun x => !(x.status == "SUCCESS")) := by
              rw [hbad']; exact List.mem_singleton.mpr rfl
            obtain ⟨hrmem, hrpred⟩ := List.mem_filter.mp hrmem_f
            have hrne : r.status ≠ "SUCCESS" := by simpa using hrpred
            exact (hgoodall r hrmem).2 hrne
        · intro msg hm hlen
          left
          have hm' : some (match l1.results.filter (fun r => !(r.status == "SUCCESS")) with
              | [r'] => r'.error.getD ""
              | _ => vfMsg (l1.results.filter (fun r => !(r.status == "SUCCESS"))).length
                  fps.length) = some msg := hm
          have hlen' : 1 < (l1.results.filter (fun x => !(x.status == "SUCCESS"))).length := hlen
          show msg = vfMsg (l1.results.filter (fun x => !(x.status == "SUCCESS"))).length
            fps.length
          rcases hb : l1.results.filter (fun x => !(x.status == "SUCCESS")) with _ | ⟨r1, rest1⟩
          · rw [hb] at hlen'; simp at hlen'
          · rcases rest1 with _ | ⟨r2, rest⟩
            · rw [hb] at hlen'; simp at hlen'
            · rw [hb] at hm'
              injection hm' with h1
              rw [hb, ← h1]
  · rw [if_neg hcond] at h
    rcases hl : runLoop (fun f => processSingleFile f vo vbe valEnv execEnv t) ff fps ⟨[], 0, 0⟩
      with _ | l <;> simp only [hl] at h
    · exact absurd h (by simp)
    · cases h
      obtain ⟨p1, p2, p3⟩ := runError_spec l.results hgoodall
      exact ⟨p1, p2, fun msg hm hle => Or.inr (p3 msg hm hle)⟩

def demoFailRec : FileRec where
  file := "f2"
  taskId := none
  status := "FAILURE"
  result := { is_valid := some false }
  error := some "Changeset validation failed. See validation errors above."

def demoOut : RunOutput where
  results := [demoFailRec]
  statusOutput := "FAILURE"
  resultOutput := [mapResult demoFailRec]
  thrown := some "Changeset validation failed. See validation errors above."
  valCalls := 3
  execCalls := 0

theorem C8_run_failure_propagation_witness :
    runCore "validate_first" false true false ["f1", "f2", "f3"] demoValEnv demoExecEnv 10 =
      some demoOut ∧
    (demoOut.thrown.isSome = true ↔
      (demoOut.statusOutput = "FAILURE" ∨ demoOut.statusOutput = "TIMEOUT" ∨
        demoOut.statusOutput = "REVOKED")) :=
  ⟨by decide,
   (C8_run_failure_propagation "validate_first" false true false ["f1", "f2", "f3"]
     demoValEnv demoExecEnv 10 demoOut (by decide)).1⟩
